import Mathlib

/-!
Verification of the concurrent container collection: a two-lock FIFO queue
with a sentinel node (`ThreadSafeQueue2.cpp`, class `CustomQueue`) and two
single-lock stacks (`ThreadSafeStack.cpp` wrapping `std::stack`, and the
intrusive-chain `ThreadSafeStack2.cpp`).

The queue is embedded with an explicit heap: node addresses are natural
numbers, the heap maps an address to the node stored there (or `none` once
freed), and an allocation counter supplies fresh addresses.  A node's
payload is `Option T`: `none` models the default-constructed, not yet
meaningful payload of a freshly allocated sentinel (`new Element()`), and
`some v` a payload written by `push`.  Each operation is a pure function on
this state, translated line by line from the C++ under the sequential
semantics given by the locks (every public operation's critical sections
are serialized by the two mutexes, so a single-threaded state transformer
captures each complete operation).
-/

namespace CustomQueue

/-- Source `struct Element { T data; Element* next; };` — `data` is `none` while the
node is still the sentinel (payload not yet meaningful), `next` is `none`
for a null successor pointer. -/
structure Element (T : Type) where
  data : Option T
  next : Option Nat
deriving Repr, DecidableEq

/-- A heap of allocated nodes: address ↦ node, `none` where nothing is
allocated (or after `delete`). -/
def Heap (T : Type) : Type := Nat → Option (Element T)

/-- Write `e` at address `a` (covers both field assignment through a pointer
and `new`/`delete` at that address). -/
def hupd {T : Type} (h : Heap T) (a : Nat) (e : Option (Element T)) : Heap T :=
  fun b => if b = a then e else h b

/-- The queue's state: the heap of nodes, the allocation counter giving the
next fresh address, and the two raw pointers `Head` and `Tail`. -/
structure QueueState (T : Type) where
  heap : Heap T
  nextAddr : Nat
  Head : Nat
  Tail : Nat

/-- Constructor `CustomQueue()`: allocate one dummy node (no payload, null
successor) and let both `Head` and `Tail` point at it. -/
def init (T : Type) : QueueState T :=
  ⟨hupd (fun _ => none) 0 (some ⟨none, none⟩), 1, 0, 0⟩

/-- Helper `get_tail()`: reads `Tail` under the tail lock; sequentially, just the
current value of `Tail`. -/
def get_tail {T : Type} (q : QueueState T) : Nat :=
  q.Tail

/-- Member `push(T data)`: allocate a new dummy at the next fresh address
(`new Element(); newdummy->next = nullptr`), then under the tail lock write
`Tail->data = data; Tail->next = newdummy; Tail = newdummy`.  Both fields of
the old tail node are assigned, so the write is one whole-node update. -/
def push {T : Type} (q : QueueState T) (d : T) : QueueState T :=
  let newdummy := q.nextAddr
  let h1 := hupd q.heap newdummy (some ⟨none, none⟩)
  let h2 := hupd h1 q.Tail (some ⟨some d, some newdummy⟩)
  ⟨h2, newdummy + 1, q.Head, newdummy⟩

/-- Member `pop()` (blocking): under the head lock, wait until `Head != get_tail()`;
then copy `Head->data` out, advance `Head = Head->next`, and `delete` the old
head node.  A call on an empty queue blocks forever in a sequential setting,
modelled as `none`; dereferences that the chain invariant rules out are also
`none`. -/
def pop {T : Type} (q : QueueState T) : Option (T × QueueState T) :=
  if q.Head = get_tail q then
    none
  else
    match q.heap q.Head with
    | none => none
    | some e =>
      match e.data, e.next with
      | some v, some nxt =>
        some (v, ⟨hupd q.heap q.Head none, q.nextAddr, nxt, q.Tail⟩)
      | _, _ => none

/-- Result of `bool try_pop(T& value)`: the returned flag, the queue state
after the call, and the value written to the out-parameter `value` (`none`
when `value` was not assigned). -/
structure TryPopResult (T : Type) where
  ret : Bool
  q : QueueState T
  assigned : Option T

/-- Member `try_pop(T& value)`: under the head lock, if `Head == get_tail()` return
`false` at once without touching anything; otherwise assign `value =
Head->data`, advance `Head`, delete the old node and return `true`. -/
def try_pop {T : Type} (q : QueueState T) : TryPopResult T :=
  if q.Head = get_tail q then
    ⟨false, q, none⟩
  else
    match q.heap q.Head with
    | none => ⟨false, q, none⟩
    | some e =>
      match e.data, e.next with
      | some v, some nxt =>
        ⟨true, ⟨hupd q.heap q.Head none, q.nextAddr, nxt, q.Tail⟩, some v⟩
      | _, _ => ⟨false, q, none⟩

/-- Member `empty()`: under the head lock, `Head == get_tail()`. -/
def emptyQ {T : Type} (q : QueueState T) : Bool :=
  q.Head == get_tail q

/-- The destructor's loop, `while (Head != nullptr) { temp = Head; Head =
Head->next; delete temp; }`, returning the list of addresses deleted, in
order.  The recursion is on an explicit fuel (the loop's termination is part
of what is proved); a dereference of an unallocated address stops the walk. -/
def destructorWalk {T : Type} (h : Heap T) : Nat → Option Nat → List Nat
  | _, none => []
  | 0, some _ => []
  | fuel + 1, some a =>
    match h a with
    | none => []
    | some e => a :: destructorWalk h fuel e.next

/-- Addresses freed by `~CustomQueue()` from state `q`.  The allocation
counter bounds the chain length, so it is sufficient fuel. -/
def destructorFreed {T : Type} (q : QueueState T) : List Nat :=
  destructorWalk q.heap q.nextAddr (some q.Head)

/-- Walk the chain like the destructor but collect the meaningful payloads
of the nodes visited. -/
def elemsWalk {T : Type} (h : Heap T) : Nat → Option Nat → List T
  | _, none => []
  | 0, some _ => []
  | fuel + 1, some a =>
    match h a with
    | none => []
    | some e =>
      match e.data with
      | none => elemsWalk h fuel e.next
      | some v => v :: elemsWalk h fuel e.next

/-- The payloads currently stored in the queue, oldest first. -/
def elems {T : Type} (q : QueueState T) : List T :=
  elemsWalk q.heap q.nextAddr (some q.Head)

/-- Push a whole list of values in order. -/
def pushAll {T : Type} (q : QueueState T) (vs : List T) : QueueState T :=
  vs.foldl push q

/-- Perform `n` successive blocking pops, collecting the returned values in
order; `none` if any pop would block (or hit an invalid dereference). -/
def popN {T : Type} : QueueState T → Nat → Option (List T × QueueState T)
  | q, 0 => some ([], q)
  | q, n + 1 =>
    match pop q with
    | none => none
    | some (v, q') =>
      match popN q' n with
      | none => none
      | some (ws, q'') => some (v :: ws, q'')

/-- Member `push` where the node allocation (`new Element()` on the first line of
the body) may fail: the allocation precedes the lock and every mutation, so
on failure the exception propagates with the state untouched. -/
def pushWithAlloc {T : Type} (q : QueueState T) (d : T) (allocOk : Bool) :
    Except Unit Unit × QueueState T :=
  if allocOk then (Except.ok (), push q d) else (Except.error (), q)

/-- Member `pop()` where the copy that delivers the payload to the caller (the copy
construction of the return value from `datareturned`) may fail.  By the time
that copy runs, `Head` has been advanced and the old head node deleted, so
the mutated state stands in either case; the outcome records whether the
value reached the caller (`Except.ok v`) or the copy threw
(`Except.error ()`). -/
def popWithReturnCopy {T : Type} (q : QueueState T) (copyOk : Bool) :
    Option (Except Unit T × QueueState T) :=
  if q.Head = get_tail q then
    none
  else
    match q.heap q.Head with
    | none => none
    | some e =>
      match e.data, e.next with
      | some v, some nxt =>
        some (if copyOk then Except.ok v else Except.error (),
          ⟨hupd q.heap q.Head none, q.nextAddr, nxt, q.Tail⟩)
      | _, _ => none

/-- The chain of nodes reachable from address `a`: `IsChain h a addrs vs`
says `addrs` are the successive node addresses starting at `a`, every node
but the last holds a meaningful payload (collected in `vs`), and the last
node is the sentinel — no payload yet, null successor. -/
inductive IsChain {T : Type} (h : Heap T) : Nat → List Nat → List T → Prop
  | sentinel (a : Nat) (ha : h a = some ⟨none, none⟩) : IsChain h a [a] []
  | cons (a b : Nat) (v : T) (rest : List Nat) (vs : List T)
      (ha : h a = some ⟨some v, some b⟩) (hrest : IsChain h b rest vs) :
      IsChain h a (a :: rest) (v :: vs)

/-- The queue's representation invariant: some duplicate-free chain of
allocated addresses runs from `Head` to `Tail`, `Tail` is its last node (the
sentinel), every strictly earlier node holds an already-pushed payload (the
list `vs`, oldest first), and every chain address is below the allocation
counter (so fresh allocations never collide with the chain). -/
def Inv {T : Type} (q : QueueState T) (vs : List T) : Prop :=
  ∃ addrs, IsChain q.heap q.Head addrs vs ∧ addrs.getLast? = some q.Tail ∧
    addrs.Nodup ∧ ∀ a ∈ addrs, a < q.nextAddr

end CustomQueue

namespace CustomQueue

/-- A duplicate-free list of naturals all below `n` has at most `n`
entries. -/
theorem nodup_length_le {l : List Nat} {n : Nat} (hnd : l.Nodup)
    (hb : ∀ a ∈ l, a < n) : l.length ≤ n := by
  have hsub : l.toFinset ⊆ Finset.range n := by
    intro a ha
    simp only [List.mem_toFinset] at ha
    exact Finset.mem_range.mpr (hb a ha)
  have hcard := Finset.card_le_card hsub
  rwa [List.toFinset_card_of_nodup hnd, Finset.card_range] at hcard

end CustomQueue

/-! The two sibling stacks are single-lock LIFO structures; each public
operation runs entirely inside one critical section, so the sequential model
is a pure function on the stack contents (top first).  For the intrusive
variant this list is the payload sequence of the null-terminated chain from
`Top`. -/

namespace StackV1

/-- The public member functions of `ThreadSafeStack` in `ThreadSafeStack.cpp`
(the variant wrapping `std::stack<T>`), apart from construction, copying and
assignment. -/
def ops : List String :=
  ["push", "pop", "empty", "size"]

/-- Member `push(T value)`: `data.push(value)`. -/
def push {T : Type} (s : List T) (value : T) : List T :=
  value :: s

/-- Member `T pop()`: throws `std::runtime_error` on an empty stack, otherwise
returns `data.top()` and pops it. -/
def pop {T : Type} (s : List T) : Except String (T × List T) :=
  match s with
  | [] => Except.error "ThreadSafeStack: pop() called on empty stack"
  | v :: rest => Except.ok (v, rest)

/-- Member `bool empty() const`. -/
def emptyS {T : Type} (s : List T) : Bool :=
  s.isEmpty

/-- Member `size_t size() const`. -/
def size {T : Type} (s : List T) : Nat :=
  s.length

end StackV1

namespace StackV2

/-- The public member functions of `ThreadSafeStack` in
`ThreadSafeStack2.cpp` (the intrusive-chain variant), apart from
construction, destruction, copying and assignment. -/
def ops : List String :=
  ["push", "pop", "try_pop", "peek", "empty"]

/-- Member `push(T value)`: allocate an element holding `value`, link it in front of
`Top`, make it the new `Top`. -/
def push {T : Type} (s : List T) (value : T) : List T :=
  value :: s

/-- Member `T pop()`: throws `std::runtime_error("Stack is empty")` when `Top ==
nullptr`, otherwise returns `Top->data` and advances `Top`, deleting the old
top element. -/
def pop {T : Type} (s : List T) : Except String (T × List T) :=
  match s with
  | [] => Except.error "Stack is empty"
  | v :: rest => Except.ok (v, rest)

/-- Member `bool try_pop(T& value)`: `false` on an empty stack, otherwise writes the
top payload into `value` and removes the top element. -/
def try_pop {T : Type} (s : List T) : Option (T × List T) :=
  match s with
  | [] => none
  | v :: rest => some (v, rest)

/-- Member `T peek()`: throws on an empty stack, otherwise reads `Top->data` without
modifying the chain. -/
def peek {T : Type} (s : List T) : Except String T :=
  match s with
  | [] => Except.error "Stack is empty"
  | v :: _ => Except.ok v

/-- Member `bool empty()`: `Top == nullptr`. -/
def emptyS {T : Type} (s : List T) : Bool :=
  s.isEmpty

end StackV2

namespace CustomQueue

/-! ## Chain lemmas -/

/-- A chain starts at its root address. -/
theorem IsChain.head_eq {T : Type} {h : Heap T} {a : Nat} {addrs : List Nat}
    {vs : List T} (hc : IsChain h a addrs vs) : ∃ r, addrs = a :: r := by
  cases hc with
  | sentinel a ha => exact ⟨[], rfl⟩
  | cons a b v rest vs ha hrest => exact ⟨rest, rfl⟩

/-- A chain has one more node than it has payloads (the sentinel). -/
theorem IsChain.length_eq {T : Type} {h : Heap T} {a : Nat} {addrs : List Nat}
    {vs : List T} (hc : IsChain h a addrs vs) :
    addrs.length = vs.length + 1 := by
  induction hc with
  | sentinel a ha => rfl
  | cons a b v rest vs ha hrest ih => simp [ih]

/-- Updating the heap at an address outside a chain leaves the chain
intact. -/
theorem IsChain.hupd_not_mem {T : Type} {h : Heap T} {a : Nat}
    {addrs : List Nat} {vs : List T} (hc : IsChain h a addrs vs) (b : Nat)
    (e : Option (Element T)) (hb : b ∉ addrs) :
    IsChain (hupd h b e) a addrs vs := by
  induction hc with
  | sentinel a ha =>
    refine IsChain.sentinel a ?_
    have hab : a ≠ b := by
      intro hcontra; exact hb (by simp [hcontra])
    simpa [hupd, hab] using ha
  | cons a c v rest vs ha hrest ih =>
    have hab : a ≠ b := by
      intro hcontra; exact hb (by simp [hcontra])
    refine IsChain.cons a c v rest vs ?_ ?_
    · simpa [hupd, hab] using ha
    · exact ih (fun hmem => hb (List.mem_cons_of_mem _ hmem))

/-- A list's last element is a member of it. -/
theorem mem_of_getLast?_eq {α : Type} :
    ∀ {l : List α} {x : α}, l.getLast? = some x → x ∈ l
  | [], x, hx => by simp at hx
  | [a], x, hx => by
    simp only [List.getLast?_singleton, Option.some.injEq] at hx
    simp [hx]
  | a :: b :: l, x, hx => by
    rw [List.getLast?_cons_cons] at hx
    exact List.mem_cons_of_mem a (mem_of_getLast?_eq hx)

/-- The last node of a chain is the sentinel. -/
theorem IsChain.last_sentinel {T : Type} {h : Heap T} {a t : Nat}
    {addrs : List Nat} {vs : List T} (hc : IsChain h a addrs vs)
    (ht : addrs.getLast? = some t) : h t = some ⟨none, none⟩ := by
  induction hc with
  | sentinel a ha =>
    simp only [List.getLast?_singleton, Option.some.injEq] at ht
    exact ht ▸ ha
  | cons a b v rest vs ha hrest ih =>
    apply ih
    rcases hrest.head_eq with ⟨r, hr⟩
    rw [hr] at ht ⊢
    simpa [List.getLast?_cons_cons] using ht

/-- Appending a fresh sentinel: the heap update performed by `push` (write
the new sentinel at a fresh address `n`, then overwrite the old sentinel `t`
with payload `d` and successor `n`) extends the chain by one node and the
payload list by `d`. -/
theorem IsChain.push_extend {T : Type} {h : Heap T} {a t : Nat}
    {addrs : List Nat} {vs : List T} (hc : IsChain h a addrs vs)
    (hnd : addrs.Nodup) (ht : addrs.getLast? = some t) (n : Nat)
    (hn : n ∉ addrs) (d : T) :
    IsChain (hupd (hupd h n (some ⟨none, none⟩)) t (some ⟨some d, some n⟩))
      a (addrs ++ [n]) (vs ++ [d]) := by
  induction hc with
  | sentinel a ha =>
    have hta : t = a := by
      simp only [List.getLast?_singleton, Option.some.injEq] at ht
      exact ht.symm
    have hna : n ≠ a := by
      intro hcontra; exact hn (by simp [hcontra])
    subst hta
    refine IsChain.cons t n d [n] [] ?_ (IsChain.sentinel n ?_)
    · simp [hupd]
    · simp [hupd, hna]
  | cons a b v rest vs ha hrest ih =>
    rcases hrest.head_eq with ⟨r, hr⟩
    have ht' : rest.getLast? = some t := by
      subst hr
      rw [List.getLast?_cons_cons] at ht
      exact ht
    have hat : a ≠ t := by
      intro hcontra
      exact (List.nodup_cons.mp hnd).1 (hcontra ▸ mem_of_getLast?_eq ht')
    have han : a ≠ n := by
      intro hcontra; exact hn (by simp [hcontra])
    refine IsChain.cons a b v (rest ++ [n]) (vs ++ [d]) ?_ ?_
    · simpa [hupd, hat, han] using ha
    · exact ih (List.nodup_cons.mp hnd).2 ht'
        (fun hmem => hn (List.mem_cons_of_mem _ hmem))

/-! ## The representation invariant: establishment and preservation -/

/-- The constructor establishes the invariant with no stored payloads. -/
theorem Inv_init (T : Type) : Inv (init T) [] := by
  refine ⟨[0], IsChain.sentinel 0 ?_, rfl, by simp, by simp [init]⟩
  simp [init, hupd]

/-- Under the invariant `Tail` holds the sentinel: no meaningful payload,
null successor pointer. -/
theorem Inv_tail_sentinel {T : Type} {q : QueueState T} {vs : List T}
    (h : Inv q vs) : q.heap q.Tail = some ⟨none, none⟩ := by
  rcases h with ⟨addrs, hc, ht, _, _⟩
  exact hc.last_sentinel ht

/-- Under the invariant, `Head == Tail` exactly when no payload is stored. -/
theorem Inv_head_tail_iff {T : Type} {q : QueueState T} {vs : List T}
    (h : Inv q vs) : q.Head = q.Tail ↔ vs = [] := by
  rcases h with ⟨addrs, hc, ht, hnd, _⟩
  cases hc with
  | sentinel a ha =>
    simp only [List.getLast?_singleton, Option.some.injEq] at ht
    simp [ht]
  | cons a b v rest vs ha hrest =>
    rcases hrest.head_eq with ⟨r, hr⟩
    have ht' : rest.getLast? = some q.Tail := by
      subst hr
      rw [List.getLast?_cons_cons] at ht
      exact ht
    have : q.Head ≠ q.Tail := by
      intro hcontra
      exact (List.nodup_cons.mp hnd).1 (hcontra ▸ mem_of_getLast?_eq ht')
    simp [this]

/-- Operation `push` preserves the invariant and appends its argument to the stored
payload sequence. -/
theorem Inv_push {T : Type} {q : QueueState T} {vs : List T} (h : Inv q vs)
    (d : T) : Inv (push q d) (vs ++ [d]) := by
  rcases h with ⟨addrs, hc, ht, hnd, hbound⟩
  have hn : q.nextAddr ∉ addrs := fun hmem =>
    lt_irrefl _ (hbound _ hmem)
  refine ⟨addrs ++ [q.nextAddr], ?_, ?_, ?_, ?_⟩
  · exact hc.push_extend hnd ht q.nextAddr hn d
  · simp [push]
  · simp [List.nodup_append, hnd, hn]
  · intro a ha
    simp only [List.mem_append, List.mem_singleton] at ha
    rcases ha with ha | ha
    · exact Nat.lt_succ_of_lt (hbound _ ha)
    · simp [push, ha]

/-- Dissecting a non-empty queue: under the invariant with a first payload
`v`, the queue is not logically empty, the head node holds `v` with some
successor `b`, and the state reached by deleting the head node and advancing
`Head` to `b` satisfies the invariant for the remaining payloads.  This is
exactly the state produced by the extraction step shared by `pop`,
`try_pop` and `popWithReturnCopy`. -/
theorem Inv_cons_destruct {T : Type} {q : QueueState T} {v : T} {vs : List T}
    (h : Inv q (v :: vs)) :
    ∃ b, q.Head ≠ q.Tail ∧ q.heap q.Head = some ⟨some v, some b⟩ ∧
      Inv ⟨hupd q.heap q.Head none, q.nextAddr, b, q.Tail⟩ vs := by
  have hne : q.Head ≠ q.Tail := by
    intro hcontra
    have hnil := (Inv_head_tail_iff h).mp hcontra
    simp at hnil
  rcases h with ⟨addrs, hc, ht, hnd, hbound⟩
  cases hc with
  | cons a b v rest vs ha hrest =>
    refine ⟨b, hne, ha, rest, ?_, ?_, ?_, ?_⟩
    · exact hrest.hupd_not_mem q.Head none (List.nodup_cons.mp hnd).1
    · rcases hrest.head_eq with ⟨r, hr⟩
      subst hr
      rw [List.getLast?_cons_cons] at ht
      exact ht
    · exact (List.nodup_cons.mp hnd).2
    · exact fun x hx => hbound x (List.mem_cons_of_mem _ hx)

/-- Blocking `pop` on an empty queue never passes the wait predicate. -/
theorem pop_nil {T : Type} {q : QueueState T} (h : Inv q []) :
    pop q = none := by
  have heq : q.Head = q.Tail := (Inv_head_tail_iff h).mpr rfl
  simp [pop, get_tail, heq]

/-- Operation `pop` on a non-empty queue returns the oldest payload and preserves the
invariant on the remaining payloads; `Tail` and the allocation counter are
untouched. -/
theorem pop_cons {T : Type} {q : QueueState T} {v : T} {vs : List T}
    (h : Inv q (v :: vs)) :
    ∃ q', pop q = some (v, q') ∧ Inv q' vs ∧ q'.Tail = q.Tail ∧
      q'.nextAddr = q.nextAddr := by
  rcases Inv_cons_destruct h with ⟨b, hne, hhead, hinv⟩
  refine ⟨⟨hupd q.heap q.Head none, q.nextAddr, b, q.Tail⟩, ?_, hinv, rfl, rfl⟩
  simp [pop, get_tail, hne, hhead]

/-- Operation `try_pop` on a logically empty queue (`Head == Tail`) returns `false`,
leaves the state exactly as it was, and never assigns the out-parameter. -/
theorem try_pop_empty {T : Type} (q : QueueState T) (h : q.Head = q.Tail) :
    try_pop q = ⟨false, q, none⟩ := by
  simp [try_pop, get_tail, h]

/-- Operation `try_pop` on a non-empty queue returns `true`, assigns the oldest
payload to the out-parameter, and preserves the invariant. -/
theorem try_pop_cons {T : Type} {q : QueueState T} {v : T} {vs : List T}
    (h : Inv q (v :: vs)) :
    ∃ q', try_pop q = ⟨true, q', some v⟩ ∧ Inv q' vs := by
  rcases Inv_cons_destruct h with ⟨b, hne, hhead, hinv⟩
  refine ⟨⟨hupd q.heap q.Head none, q.nextAddr, b, q.Tail⟩, ?_, hinv⟩
  simp [try_pop, get_tail, hne, hhead]

/-- The destructor's walk recovers exactly the chain when given at least the
chain's length as fuel. -/
theorem IsChain.destructorWalk_eq {T : Type} {h : Heap T} {a : Nat}
    {addrs : List Nat} {vs : List T} (hc : IsChain h a addrs vs) :
    ∀ fuel, addrs.length ≤ fuel → destructorWalk h fuel (some a) = addrs := by
  induction hc with
  | sentinel a ha =>
    intro fuel hf
    cases fuel with
    | zero => simp at hf
    | succ f => simp [destructorWalk, ha]
  | cons a b v rest vs ha hrest ih =>
    intro fuel hf
    cases fuel with
    | zero => simp at hf
    | succ f =>
      have hr : rest.length ≤ f := by
        simpa [Nat.succ_le_succ_iff] using hf
      simp [destructorWalk, ha, ih f hr]

/-- The payload walk recovers exactly the stored payloads when given at
least the chain's length as fuel. -/
theorem IsChain.elemsWalk_eq {T : Type} {h : Heap T} {a : Nat}
    {addrs : List Nat} {vs : List T} (hc : IsChain h a addrs vs) :
    ∀ fuel, addrs.length ≤ fuel → elemsWalk h fuel (some a) = vs := by
  induction hc with
  | sentinel a ha =>
    intro fuel hf
    cases fuel with
    | zero => simp at hf
    | succ f => simp [elemsWalk, ha]
  | cons a b v rest vs ha hrest ih =>
    intro fuel hf
    cases fuel with
    | zero => simp at hf
    | succ f =>
      have hr : rest.length ≤ f := by
        simpa [Nat.succ_le_succ_iff] using hf
      simp [elemsWalk, ha, ih f hr]

/-- Under the invariant, `elems` reads off exactly the stored payloads,
oldest first. -/
theorem Inv_elems {T : Type} {q : QueueState T} {vs : List T}
    (h : Inv q vs) : elems q = vs := by
  rcases h with ⟨addrs, hc, _, hnd, hbound⟩
  exact hc.elemsWalk_eq q.nextAddr (nodup_length_le hnd hbound)

/-- Pushing a list of values appends it to the stored payload sequence. -/
theorem Inv_pushAll {T : Type} {q : QueueState T} {ws : List T}
    (h : Inv q ws) (vs : List T) : Inv (pushAll q vs) (ws ++ vs) := by
  induction vs generalizing q ws with
  | nil => simpa [pushAll] using h
  | cons v vs ih =>
    have h1 := Inv_push h v
    have h2 := ih h1
    simpa [pushAll, List.append_assoc] using h2

/-- Draining a queue holding `vs` with `vs.length` blocking pops returns
exactly `vs`, in order, and leaves an invariant-satisfying empty queue. -/
theorem Inv_popN {T : Type} {q : QueueState T} {vs : List T}
    (h : Inv q vs) :
    ∃ q', popN q vs.length = some (vs, q') ∧ Inv q' [] := by
  induction vs generalizing q with
  | nil => exact ⟨q, rfl, h⟩
  | cons v vs ih =>
    rcases pop_cons h with ⟨q1, hpop, hinv1, _, _⟩
    rcases ih hinv1 with ⟨q2, hpopN, hinv2⟩
    exact ⟨q2, by simp [popN, hpop, hpopN], hinv2⟩

/-- When the copy delivering the payload to the caller fails, the chain has
already lost its head node: the queue ends in the dequeued state (invariant
on the remaining payloads) while the outcome carries no value. -/
theorem popWithReturnCopy_fail {T : Type} {q : QueueState T} {v : T}
    {vs : List T} (h : Inv q (v :: vs)) :
    ∃ q', popWithReturnCopy q false = some (Except.error (), q') ∧
      Inv q' vs := by
  rcases Inv_cons_destruct h with ⟨b, hne, hhead, hinv⟩
  refine ⟨⟨hupd q.heap q.Head none, q.nextAddr, b, q.Tail⟩, ?_, hinv⟩
  simp [popWithReturnCopy, get_tail, hne, hhead]

end CustomQueue

/-! ## The claims -/

open CustomQueue in
/-- C1: the chain always contains at least one node; `Tail` always holds the
sentinel (no successor, no meaningful payload); the queue is logically empty
iff `Head == Tail`; every node strictly before `Tail` holds a valid,
already-pushed payload — all packaged in the representation invariant `Inv`,
which holds after construction and is preserved by every `push`, `pop` and
`try_pop` (a `pop` on an empty queue blocks and performs no transition; a
`try_pop` on an empty queue returns with the state untouched). -/
theorem queue_sentinel_invariant :
    (∀ T : Type, Inv (init T) []) ∧
    (∀ (T : Type) (q : QueueState T) (vs : List T), Inv q vs →
      q.heap q.Tail = some ⟨none, none⟩ ∧ (q.Head = q.Tail ↔ vs = [])) ∧
    (∀ (T : Type) (q : QueueState T) (vs : List T) (d : T), Inv q vs →
      Inv (push q d) (vs ++ [d])) ∧
    (∀ (T : Type) (q : QueueState T) (v : T) (vs : List T),
      Inv q (v :: vs) → ∃ q', pop q = some (v, q') ∧ Inv q' vs) ∧
    (∀ (T : Type) (q : QueueState T), Inv q [] → pop q = none) ∧
    (∀ (T : Type) (q : QueueState T) (v : T) (vs : List T),
      Inv q (v :: vs) → ∃ q', try_pop q = ⟨true, q', some v⟩ ∧ Inv q' vs) ∧
    (∀ (T : Type) (q : QueueState T) (vs : List T), Inv q vs →
      q.Head = q.Tail → try_pop q = ⟨false, q, none⟩ ∧ Inv q vs) := by
  refine ⟨Inv_init, ?_, ?_, ?_, ?_, ?_, ?_⟩
  · exact fun T q vs h => ⟨Inv_tail_sentinel h, Inv_head_tail_iff h⟩
  · exact fun T q vs d h => Inv_push h d
  · intro T q v vs h
    rcases pop_cons h with ⟨q', hpop, hinv, _, _⟩
    exact ⟨q', hpop, hinv⟩
  · exact fun T q h => pop_nil h
  · exact fun T q v vs h => try_pop_cons h
  · exact fun T q vs h heq => ⟨try_pop_empty q heq, h⟩

/-- Witness for C1: a concrete run — the invariant holds for the fresh
queue, after a push of `7`, and after popping it back off. -/
theorem queue_sentinel_invariant_witness :
    CustomQueue.Inv (CustomQueue.push (CustomQueue.init Nat) 7) [7] ∧
    (∃ q', CustomQueue.pop (CustomQueue.push (CustomQueue.init Nat) 7) =
      some (7, q') ∧ CustomQueue.Inv q' []) := by
  have h1 := queue_sentinel_invariant.2.2.1 Nat (CustomQueue.init Nat) [] 7
    (CustomQueue.Inv_init Nat)
  exact ⟨h1, queue_sentinel_invariant.2.2.2.1 Nat _ 7 [] h1⟩

open CustomQueue in
/-- C2: pushing `v1, …, vn` on a freshly constructed queue with no
interleaved pops and then popping `n` times returns exactly `v1, …, vn` in
that order. -/
theorem queue_fifo_order (T : Type) (vs : List T) :
    ∃ q', popN (pushAll (init T) vs) vs.length = some (vs, q') ∧
      Inv q' [] := by
  have h : Inv (pushAll (init T) vs) vs := by
    simpa using Inv_pushAll (Inv_init T) vs
  exact Inv_popN h

open CustomQueue in
/-- C3: a freshly constructed queue reports `empty() == true`, and `try_pop`
on it returns `false` with the state untouched and the out-parameter never
assigned. -/
theorem queue_empty_on_construction (T : Type) :
    emptyQ (init T) = true ∧
    try_pop (init T) = ⟨false, init T, none⟩ :=
  ⟨rfl, rfl⟩

open CustomQueue in
/-- C4: whenever `Head == Tail`, `try_pop` returns `false` immediately and
does not touch the chain — the returned state is exactly the input state
(same heap, hence every node, same `Head`, `Tail` and allocation counter)
and the out-parameter is never assigned. -/
theorem queue_try_pop_empty_untouched (T : Type) (q : QueueState T)
    (h : q.Head = q.Tail) :
    try_pop q = ⟨false, q, none⟩ :=
  try_pop_empty q h

/-- Witness for C4 at the freshly constructed queue. -/
theorem queue_try_pop_empty_untouched_witness :
    CustomQueue.try_pop (CustomQueue.init Nat) =
      ⟨false, CustomQueue.init Nat, none⟩ :=
  queue_try_pop_empty_untouched Nat (CustomQueue.init Nat) rfl

open CustomQueue in
/-- C5: if the node allocation at the start of `push` fails, the failure is
propagated to the caller and the queue is left exactly in its prior state,
which still satisfies the representation invariant for the same payloads —
no partial mutation of `Head`, `Tail` or any node. -/
theorem queue_push_alloc_failure_safe (T : Type) (q : QueueState T)
    (vs : List T) (d : T) (h : Inv q vs) :
    pushWithAlloc q d false = (Except.error (), q) ∧
    Inv (pushWithAlloc q d false).2 vs :=
  ⟨rfl, h⟩

/-- Witness for C5 at the freshly constructed queue. -/
theorem queue_push_alloc_failure_safe_witness :
    CustomQueue.pushWithAlloc (CustomQueue.init Nat) 5 false =
      (Except.error (), CustomQueue.init Nat) ∧
    CustomQueue.Inv (CustomQueue.pushWithAlloc (CustomQueue.init Nat) 5
      false).2 [] :=
  queue_push_alloc_failure_safe Nat (CustomQueue.init Nat) [] 5
    (CustomQueue.Inv_init Nat)

open CustomQueue in
/-- C6: in `pop`, the head node is deleted and `Head` advanced before the
payload is copied to the caller; if that copy fails, the caller receives no
value (`Except.error`) while the queue has already lost the head payload —
the remaining elements are exactly the tail of the previous contents, so a
value not stored twice is neither returned nor retrievable afterwards. -/
theorem queue_pop_return_copy_loss (T : Type) (q : QueueState T) (v : T)
    (vs : List T) (h : Inv q (v :: vs)) :
    ∃ q', popWithReturnCopy q false = some (Except.error (), q') ∧
      elems q' = vs ∧ (v ∉ vs → v ∉ elems q') := by
  rcases popWithReturnCopy_fail h with ⟨q', hrun, hinv⟩
  have he : elems q' = vs := Inv_elems hinv
  exact ⟨q', hrun, he, fun hnot => he ▸ hnot⟩

/-- Witness for C6: push `5` onto a fresh queue, then fail the return copy —
no value is delivered and `5` is gone from the queue. -/
theorem queue_pop_return_copy_loss_witness :
    ∃ q', CustomQueue.popWithReturnCopy
        (CustomQueue.push (CustomQueue.init Nat) 5) false =
      some (Except.error (), q') ∧
      CustomQueue.elems q' = [] ∧
      ((5 : Nat) ∉ ([] : List Nat) → (5 : Nat) ∉ CustomQueue.elems q') :=
  queue_pop_return_copy_loss Nat (CustomQueue.push (CustomQueue.init Nat) 5)
    5 [] (CustomQueue.Inv_push (CustomQueue.Inv_init Nat) 5)

open CustomQueue in
/-- C7: after `N` pushes on a fresh queue followed by exactly `N` successful
pops and no other activity, `empty()` returns `true`. -/
theorem queue_drained_empty (T : Type) (vs : List T) :
    ∃ q', popN (pushAll (init T) vs) vs.length = some (vs, q') ∧
      emptyQ q' = true := by
  have h : Inv (pushAll (init T) vs) vs := by
    simpa using Inv_pushAll (Inv_init T) vs
  rcases Inv_popN h with ⟨q', hrun, hinv⟩
  refine ⟨q', hrun, ?_⟩
  have heq : q'.Head = q'.Tail := (Inv_head_tail_iff hinv).mpr rfl
  simp [emptyQ, get_tail, heq]

open CustomQueue in
/-- C8: from any state satisfying the invariant (any state reachable by
pushes and pops), the destructor's walk terminates and deletes exactly the
nodes of the chain from `Head` — each address once (`Nodup`), all `n + 1`
nodes for `n` stored payloads, the sentinel (`Tail`'s node) included. -/
theorem queue_destructor_frees_each_node_once (T : Type)
    (q : QueueState T) (vs : List T) (h : Inv q vs) :
    ∃ addrs, IsChain q.heap q.Head addrs vs ∧
      destructorFreed q = addrs ∧ addrs.Nodup ∧
      addrs.length = vs.length + 1 ∧ q.Tail ∈ addrs := by
  rcases h with ⟨addrs, hc, ht, hnd, hbound⟩
  refine ⟨addrs, hc, ?_, hnd, hc.length_eq, mem_of_getLast?_eq ht⟩
  exact hc.destructorWalk_eq q.nextAddr (nodup_length_le hnd hbound)

/-- Witness for C8: destructing a fresh queue after one push frees the two
nodes — the promoted real node and the new sentinel — exactly once. -/
theorem queue_destructor_frees_each_node_once_witness :
    ∃ addrs, CustomQueue.IsChain
        (CustomQueue.push (CustomQueue.init Nat) 7).heap
        (CustomQueue.push (CustomQueue.init Nat) 7).Head addrs [7] ∧
      CustomQueue.destructorFreed (CustomQueue.push (CustomQueue.init Nat) 7)
        = addrs ∧ addrs.Nodup ∧ addrs.length = 2 ∧
      (CustomQueue.push (CustomQueue.init Nat) 7).Tail ∈ addrs :=
  queue_destructor_frees_each_node_once Nat
    (CustomQueue.push (CustomQueue.init Nat) 7) [7]
    (CustomQueue.Inv_push (CustomQueue.Inv_init Nat) 7)

/-- C9 as stated is false: the claim says each stack variant exposes all of
push, pop, peek, empty and size, but the `std::stack`-backed variant has no
`peek` member and the intrusive-chain variant has no `size` member. -/
theorem stacks_five_ops_counterexample :
    ¬ (("push" ∈ StackV1.ops ∧ "pop" ∈ StackV1.ops ∧ "peek" ∈ StackV1.ops ∧
        "empty" ∈ StackV1.ops ∧ "size" ∈ StackV1.ops) ∧
       ("push" ∈ StackV2.ops ∧ "pop" ∈ StackV2.ops ∧ "peek" ∈ StackV2.ops ∧
        "empty" ∈ StackV2.ops ∧ "size" ∈ StackV2.ops)) := by
  decide

/-- C9 amended: both stack variants expose push, pop and empty; the
container-backed variant additionally exposes size (but not peek), the
intrusive-chain variant additionally exposes peek and try_pop (but not
size); and each satisfies the error-on-empty-pop contract — `pop` on an
empty stack raises an error rather than returning a value. -/
theorem stacks_ops_error_on_empty_pop (T : Type) :
    ("push" ∈ StackV1.ops ∧ "pop" ∈ StackV1.ops ∧ "empty" ∈ StackV1.ops ∧
      "size" ∈ StackV1.ops ∧ "peek" ∉ StackV1.ops) ∧
    ("push" ∈ StackV2.ops ∧ "pop" ∈ StackV2.ops ∧ "empty" ∈ StackV2.ops ∧
      "peek" ∈ StackV2.ops ∧ "try_pop" ∈ StackV2.ops ∧
      "size" ∉ StackV2.ops) ∧
    StackV1.pop ([] : List T) =
      Except.error "ThreadSafeStack: pop() called on empty stack" ∧
    StackV2.pop ([] : List T) = Except.error "Stack is empty" := by
  refine ⟨?_, ?_, rfl, rfl⟩ <;> simp [StackV1.ops, StackV2.ops]

/-- C10: on the intrusive-chain stack, `push(v)` followed by `pop()` returns
`v` and restores the previous stack contents. -/
theorem stack2_push_pop_roundtrip (T : Type) (s : List T) (v : T) :
    StackV2.pop (StackV2.push s v) = Except.ok (v, s) :=
  rfl
